import Mathlib

/-!
# Verification of the ctags Elixir scanner (src/elixir.c)

A shallow embedding of the line-oriented Elixir tag scanner. Lines are
`List Char`; the per-file module state is a `List Char`; tag emission is
modelled by `Option`-valued functions (at most one tag per line, matching
the source where each `parseDirective` branch calls one emission routine).
Character classifiers mirror the C locale (`isalpha`, `isalnum`, `isspace`
over ASCII). Kind enablement is a function `elixirKind → Bool`, defaulting
to all-enabled as in the `ElixirKinds` table.
-/

namespace Ctags.Elixir

/-- The closed kind set of src/elixir.c (`elixirKind`). -/
inductive elixirKind where
  | K_MACRO | K_FUNCTION | K_MODULE | K_RECORD
  deriving DecidableEq, Repr

open elixirKind

/-- One row of the `ElixirKinds` table: default-enabled flag, code letter,
display name, description. -/
structure kindOption where
  enabled : Bool
  letter : Char
  name : String
  description : String
  deriving DecidableEq, Repr

/-- The `ElixirKinds` table of src/elixir.c, indexed by kind. -/
def ElixirKinds : elixirKind → kindOption
  | K_MACRO    => { enabled := true, letter := 'd', name := "macro",    description := "macro definitions" }
  | K_FUNCTION => { enabled := true, letter := 'f', name := "function", description := "functions" }
  | K_MODULE   => { enabled := true, letter := 'm', name := "module",   description := "modules" }
  | K_RECORD   => { enabled := true, letter := 'r', name := "record",   description := "record definitions" }

/-- A kind configuration: which kinds are currently enabled. -/
def KindConfig : Type := elixirKind → Bool

/-- The default configuration: the `enabled` column of `ElixirKinds`
(every kind enabled, all rows carry `TRUE`). -/
def defaultEnabled : KindConfig := fun k => (ElixirKinds k).enabled

/-- C-locale `isalpha` over ASCII. -/
def isalpha (c : Char) : Bool :=
  ('a' ≤ c && c ≤ 'z') || ('A' ≤ c && c ≤ 'Z')

/-- C-locale `isdigit` over ASCII. -/
def isdigit (c : Char) : Bool :=
  '0' ≤ c && c ≤ '9'

/-- C-locale `isalnum` over ASCII. -/
def isalnum (c : Char) : Bool :=
  isalpha c || isdigit c

/-- C-locale `isspace` over ASCII: space, tab, newline, vertical tab,
form feed, carriage return. -/
def isspace (c : Char) : Bool :=
  c = ' ' || c = '\t' || c = '\n' || c = '\x0b' || c = '\x0c' || c = '\r'

/-- `isIdentifierFirstCharacter` of src/elixir.c: alphabetic. -/
def isIdentifierFirstCharacter (c : Char) : Bool :=
  isalpha c

/-- `isIdentifierCharacter` of src/elixir.c: alphanumeric, underscore or dot. -/
def isIdentifierCharacter (c : Char) : Bool :=
  isalnum c || c = '_' || c = '.'

/-- `parseIdentifier` of src/elixir.c: from the cursor, consume the maximal
run of identifier characters; return the scanned text (the cleared-and-refilled
buffer) together with the advanced cursor. -/
def parseIdentifier : List Char → List Char × List Char
  | [] => ([], [])
  | c :: cs =>
    if isIdentifierCharacter c then
      let p := parseIdentifier cs
      (c :: p.1, p.2)
    else ([], c :: cs)

/-- `skipWhitespace` of src/elixir.c: advance the cursor past whitespace. -/
def skipWhitespace : List Char → List Char
  | [] => []
  | c :: cs => if isspace c then skipWhitespace cs else c :: cs

/-- A tag record as built by the emission routines: name, kind display name,
kind code letter, and the optional scope pair (label, value). -/
structure tagEntryInfo where
  name : List Char
  kindName : String
  kind : Char
  scope : Option (String × List Char)
  deriving DecidableEq, Repr

/-- `makeMemberTag` of src/elixir.c: emit a tag when the kind is enabled and
the identifier non-empty; attach scope `("module", module)` when a module
value is supplied and non-empty. -/
def makeMemberTag (cfg : KindConfig) (identifier : List Char)
    (kind : elixirKind) (module? : Option (List Char)) : Option tagEntryInfo :=
  if cfg kind && identifier.length > 0 then
    some { name := identifier
           kindName := (ElixirKinds kind).name
           kind := (ElixirKinds kind).letter
           scope :=
             match module? with
             | some m => if m.length > 0 then some ("module", m) else none
             | none => none }
  else none

/-- Modelled from the spec: `makeSimpleTag` is host (ctags core) code not in
src/. Per §4.2, tag emission is a no-op if the kind is disabled by
configuration or the name is empty; otherwise it forwards an unscoped record
with the kind's display name and code letter. -/
def makeSimpleTag (cfg : KindConfig) (identifier : List Char)
    (kind : elixirKind) : Option tagEntryInfo :=
  if cfg kind && identifier.length > 0 then
    some { name := identifier
           kindName := (ElixirKinds kind).name
           kind := (ElixirKinds kind).letter
           scope := none }
  else none

/-- `parseModuleTag` of src/elixir.c: parse the identifier at the cursor,
emit it as a module tag, and overwrite the module state with it. Returns the
emitted tag (if any) and the new module state. -/
def parseModuleTag (cfg : KindConfig) (cp : List Char) :
    Option tagEntryInfo × List Char :=
  let identifier := (parseIdentifier cp).1
  (makeSimpleTag cfg identifier K_MODULE, identifier)

/-- `parseSimpleTag` of src/elixir.c: parse the identifier at the cursor and
emit it, unscoped, with the given kind. -/
def parseSimpleTag (cfg : KindConfig) (cp : List Char)
    (kind : elixirKind) : Option tagEntryInfo :=
  makeSimpleTag cfg (parseIdentifier cp).1 kind

/-- `parseFunctionTag` of src/elixir.c: parse the identifier at the cursor
and emit it as a function tag scoped by the current module (via
`makeMemberTag`). Present in the source but unreachable from the driver:
its only call site is commented out. -/
def parseFunctionTag (cfg : KindConfig) (cp : List Char)
    (module : List Char) : Option tagEntryInfo :=
  makeMemberTag cfg (parseIdentifier cp).1 K_FUNCTION (some module)

/-- `parseDirective` of src/elixir.c: scan the leading identifier as the
directive keyword, skip whitespace, and dispatch on the keyword. Returns the
emitted tag (if any) and the new module state. -/
def parseDirective (cfg : KindConfig) (cp : List Char)
    (module : List Char) : Option tagEntryInfo × List Char :=
  let p := parseIdentifier cp
  let drtv := p.1
  let cp1 := skipWhitespace p.2
  if drtv = ['d', 'e', 'f'] || drtv = ['d', 'e', 'f', 'p'] then
    (parseSimpleTag cfg cp1 K_FUNCTION, module)
  else if drtv = ['d', 'e', 'f', 'm', 'a', 'c', 'r', 'o'] then
    (parseSimpleTag cfg cp1 K_MACRO, module)
  else if drtv = ['d', 'e', 'f', 'r', 'e', 'c', 'o', 'r', 'd'] then
    (parseSimpleTag cfg cp1 K_RECORD, module)
  else if drtv = ['d', 'e', 'f', 'm', 'o', 'd', 'u', 'l', 'e'] then
    parseModuleTag cfg cp1
  else
    (none, module)

/-- One iteration of the `while` loop of `findElixirTags`: skip leading
whitespace, drop comment (`#`) and at-sign (`@`) lines, and enter
`parseDirective` only when the first remaining character is `d`. -/
def processLine (cfg : KindConfig) (line : List Char)
    (module : List Char) : Option tagEntryInfo × List Char :=
  match skipWhitespace line with
  | [] => (none, module)
  | c :: cs =>
    if c = '#' then (none, module)
    else if c = '@' then (none, module)
    else if c = 'd' then parseDirective cfg (c :: cs) module
    else (none, module)

/-- The loop of `findElixirTags`: fold `processLine` over the file's lines,
threading the module state; tags accumulate in discovery order. -/
def scanLines (cfg : KindConfig) :
    List (List Char) → List Char → List tagEntryInfo × List Char
  | [], module => ([], module)
  | line :: rest, module =>
    let p := processLine cfg line module
    let q := scanLines cfg rest p.2
    (p.1.toList ++ q.1, q.2)

/-- `findElixirTags` of src/elixir.c: scan one file's lines with the module
state initialized empty (`vStringNew`). -/
def findElixirTags (cfg : KindConfig) (lines : List (List Char)) :
    List tagEntryInfo :=
  (scanLines cfg lines []).1

/-- The host's per-file invocation pattern: each file is scanned by its own
call to `findElixirTags` (the driver allocates a fresh, empty module state
per call and deletes it at the end of the file). -/
def scanFiles (cfg : KindConfig) (files : List (List (List Char))) :
    List (List tagEntryInfo) :=
  files.map (findElixirTags cfg)

/-- No identifier character starts the given cursor position: the position is
at end of line or at a character outside the identifier class. -/
def noIdentAhead : List Char → Bool
  | [] => true
  | c :: _ => !isIdentifierCharacter c

/-- The leading identifier of a line after whitespace trimming: the candidate
directive keyword that `parseDirective` would compare. -/
def directiveOf (line : List Char) : List Char :=
  (parseIdentifier (skipWhitespace line)).1

/-- Turn off one kind in a configuration, leaving the others unchanged. -/
def disable (cfg : KindConfig) (k : elixirKind) : KindConfig :=
  fun j => if j = k then false else cfg j

/-- Keep an optional value only when it satisfies the predicate. -/
def optFilter {α : Type} (p : α → Bool) : Option α → Option α
  | none => none
  | some a => if p a then some a else none

/-! ## Lexical lemmas -/

theorem space_not_ident (c : Char) (h : isspace c = true) :
    isIdentifierCharacter c = false := by
  simp only [isspace, Bool.or_eq_true, decide_eq_true_eq] at h
  rcases h with ((((h | h) | h) | h) | h) | h <;> subst h <;> decide

theorem parseIdentifier_none (l : List Char) (h : noIdentAhead l = true) :
    parseIdentifier l = ([], l) := by
  cases l with
  | nil => rfl
  | cons c cs =>
    simp only [noIdentAhead, Bool.not_eq_true'] at h
    simp [parseIdentifier, h]

theorem parseIdentifier_append (id rest : List Char)
    (hid : ∀ c ∈ id, isIdentifierCharacter c = true)
    (hrest : noIdentAhead rest = true) :
    parseIdentifier (id ++ rest) = (id, rest) := by
  induction id with
  | nil => simpa using parseIdentifier_none rest hrest
  | cons c cs ih =>
    have hc : isIdentifierCharacter c = true := hid c (by simp)
    have ih' := ih (fun d hd => hid d (by simp [hd]))
    simp [parseIdentifier, hc, ih']

theorem skipWhitespace_append (ws l : List Char)
    (h : ∀ c ∈ ws, isspace c = true) :
    skipWhitespace (ws ++ l) = skipWhitespace l := by
  induction ws with
  | nil => rfl
  | cons c cs ih =>
    have hc : isspace c = true := h c (by simp)
    have ih' := ih (fun d hd => h d (by simp [hd]))
    simp [skipWhitespace, hc, ih']

theorem skipWhitespace_cons (c : Char) (cs : List Char)
    (h : isspace c = false) : skipWhitespace (c :: cs) = c :: cs := by
  simp [skipWhitespace, h]

theorem parseIdentifier_eq_takeWhile (cp : List Char) :
    parseIdentifier cp =
      (cp.takeWhile isIdentifierCharacter, cp.dropWhile isIdentifierCharacter) := by
  induction cp with
  | nil => rfl
  | cons c cs ih =>
    by_cases hc : isIdentifierCharacter c = true
    · simp [parseIdentifier, List.takeWhile_cons, List.dropWhile_cons, hc, ih]
    · simp only [Bool.not_eq_true] at hc
      simp [parseIdentifier, List.takeWhile_cons, List.dropWhile_cons, hc]

/-! ## Symbolic execution of `processLine` -/

theorem processLine_keyword (cfg : KindConfig) (kw : List Char) (k : elixirKind)
    (ws2 id rest m : List Char)
    (hkw : kw = ['d', 'e', 'f'] ∧ k = K_FUNCTION ∨
           kw = ['d', 'e', 'f', 'p'] ∧ k = K_FUNCTION ∨
           kw = ['d', 'e', 'f', 'm', 'a', 'c', 'r', 'o'] ∧ k = K_MACRO ∨
           kw = ['d', 'e', 'f', 'r', 'e', 'c', 'o', 'r', 'd'] ∧ k = K_RECORD)
    (hws2 : ws2 ≠ []) (h2 : ∀ c ∈ ws2, isspace c = true)
    (hid : id ≠ []) (h4 : ∀ c ∈ id, isIdentifierCharacter c = true)
    (h5 : noIdentAhead rest = true) :
    processLine cfg (kw ++ ws2 ++ id ++ rest) m = (makeSimpleTag cfg id k, m) := by
  obtain ⟨w, wtl, rfl⟩ : ∃ w wtl, ws2 = w :: wtl := by
    cases ws2 with
    | nil => exact absurd rfl hws2
    | cons a b => exact ⟨a, b, rfl⟩
  obtain ⟨i, itl, rfl⟩ : ∃ i itl, id = i :: itl := by
    cases id with
    | nil => exact absurd rfl hid
    | cons a b => exact ⟨a, b, rfl⟩
  have hw : isspace w = true := h2 w (by simp)
  have hwni : isIdentifierCharacter w = false := space_not_ident w hw
  have hi : isIdentifierCharacter i = true := h4 i (by simp)
  have hins : isspace i = false := by
    cases hsp : isspace i with
    | false => rfl
    | true => rw [space_not_ident i hsp] at hi; exact absurd hi (by simp)
  have h2' : ∀ c ∈ wtl, isspace c = true := fun c hc => h2 c (by simp [hc])
  have h4' : ∀ c ∈ itl, isIdentifierCharacter c = true := fun c hc => h4 c (by simp [hc])
  have hsa := skipWhitespace_append wtl (i :: (itl ++ rest)) h2'
  have hpa := parseIdentifier_append itl rest h4' h5
  rcases hkw with ⟨rfl, rfl⟩ | ⟨rfl, rfl⟩ | ⟨rfl, rfl⟩ | ⟨rfl, rfl⟩ <;>
    simp +decide [processLine, parseDirective, parseSimpleTag, parseIdentifier,
      skipWhitespace, hwni, hw, hins, hi, hsa, hpa]

theorem processLine_defmodule (cfg : KindConfig) (ws2 id rest m : List Char)
    (hws2 : ws2 ≠ []) (h2 : ∀ c ∈ ws2, isspace c = true)
    (hid : id ≠ []) (h4 : ∀ c ∈ id, isIdentifierCharacter c = true)
    (h5 : noIdentAhead rest = true) :
    processLine cfg (['d', 'e', 'f', 'm', 'o', 'd', 'u', 'l', 'e'] ++ ws2 ++ id ++ rest) m =
      (makeSimpleTag cfg id K_MODULE, id) := by
  obtain ⟨w, wtl, rfl⟩ : ∃ w wtl, ws2 = w :: wtl := by
    cases ws2 with
    | nil => exact absurd rfl hws2
    | cons a b => exact ⟨a, b, rfl⟩
  obtain ⟨i, itl, rfl⟩ : ∃ i itl, id = i :: itl := by
    cases id with
    | nil => exact absurd rfl hid
    | cons a b => exact ⟨a, b, rfl⟩
  have hw : isspace w = true := h2 w (by simp)
  have hwni : isIdentifierCharacter w = false := space_not_ident w hw
  have hi : isIdentifierCharacter i = true := h4 i (by simp)
  have hins : isspace i = false := by
    cases hsp : isspace i with
    | false => rfl
    | true => rw [space_not_ident i hsp] at hi; exact absurd hi (by simp)
  have h2' : ∀ c ∈ wtl, isspace c = true := fun c hc => h2 c (by simp [hc])
  have h4' : ∀ c ∈ itl, isIdentifierCharacter c = true := fun c hc => h4 c (by simp [hc])
  have hsa := skipWhitespace_append wtl (i :: (itl ++ rest)) h2'
  have hpa := parseIdentifier_append itl rest h4' h5
  simp +decide [processLine, parseDirective, parseModuleTag, parseIdentifier,
    skipWhitespace, hwni, hw, hins, hi, hsa, hpa]

theorem processLine_skip (cfg : KindConfig) (line m : List Char)
    (d1 : directiveOf line ≠ ['d', 'e', 'f'])
    (d2 : directiveOf line ≠ ['d', 'e', 'f', 'p'])
    (d3 : directiveOf line ≠ ['d', 'e', 'f', 'm', 'a', 'c', 'r', 'o'])
    (d4 : directiveOf line ≠ ['d', 'e', 'f', 'r', 'e', 'c', 'o', 'r', 'd'])
    (d5 : directiveOf line ≠ ['d', 'e', 'f', 'm', 'o', 'd', 'u', 'l', 'e']) :
    processLine cfg line m = (none, m) := by
  unfold directiveOf at d1 d2 d3 d4 d5
  unfold processLine
  cases hsw : skipWhitespace line with
  | nil => rfl
  | cons c cs =>
    rw [hsw] at d1 d2 d3 d4 d5
    by_cases hc1 : c = '#'
    · simp [hc1]
    by_cases hc2 : c = '@'
    · simp [hc1, hc2]
    by_cases hc3 : c = 'd'
    · subst hc3
      simp [hc1, hc2, parseDirective, d1, d2, d3, d4, d5]
    · simp [hc1, hc2, hc3]

theorem processLine_state (cfg : KindConfig) (line m : List Char)
    (hd : directiveOf line ≠ ['d', 'e', 'f', 'm', 'o', 'd', 'u', 'l', 'e']) :
    (processLine cfg line m).2 = m := by
  unfold directiveOf at hd
  unfold processLine
  cases hsw : skipWhitespace line with
  | nil => rfl
  | cons c cs =>
    rw [hsw] at hd
    by_cases hc1 : c = '#'
    · simp [hc1]
    by_cases hc2 : c = '@'
    · simp [hc1, hc2]
    by_cases hc3 : c = 'd'
    · subst hc3
      simp only [hc1, hc2, if_false, if_true, reduceIte, parseDirective]
      repeat' split
      all_goals rfl
    · simp [hc1, hc2, hc3]

theorem processLine_kw_no_ident (cfg : KindConfig) (kw tail m : List Char)
    (hkw : kw ∈ ([['d', 'e', 'f'], ['d', 'e', 'f', 'p'],
                  ['d', 'e', 'f', 'm', 'a', 'c', 'r', 'o'],
                  ['d', 'e', 'f', 'r', 'e', 'c', 'o', 'r', 'd'],
                  ['d', 'e', 'f', 'm', 'o', 'd', 'u', 'l', 'e']] : List (List Char)))
    (htail : noIdentAhead tail = true)
    (htail2 : noIdentAhead (skipWhitespace tail) = true) :
    (processLine cfg (kw ++ tail) m).1 = none := by
  fin_cases hkw <;>
    simp +decide [processLine, parseDirective, parseSimpleTag, parseModuleTag,
      parseIdentifier, skipWhitespace, makeSimpleTag,
      parseIdentifier_none tail htail,
      parseIdentifier_none (skipWhitespace tail) htail2]

/-! ## Tag invariants -/

theorem makeSimpleTag_inv (cfg : KindConfig) (id : List Char) (k : elixirKind)
    (t : tagEntryInfo) (h : makeSimpleTag cfg id k = some t) :
    t.name ≠ [] ∧ t.scope = none := by
  unfold makeSimpleTag at h
  split at h
  · rename_i hcond
    injection h with h
    subst h
    refine ⟨?_, rfl⟩
    have hlen : id.length > 0 := by
      have := (Bool.and_eq_true _ _).mp hcond
      simpa using this.2
    exact List.ne_nil_of_length_pos hlen
  · exact absurd h (by simp)

theorem processLine_tag_inv (cfg : KindConfig) (line m : List Char)
    (t : tagEntryInfo) (h : (processLine cfg line m).1 = some t) :
    t.name ≠ [] ∧ t.scope = none := by
  unfold processLine at h
  cases hsw : skipWhitespace line with
  | nil => rw [hsw] at h; simp at h
  | cons c cs =>
    rw [hsw] at h
    by_cases hc1 : c = '#'
    · simp [hc1] at h
    by_cases hc2 : c = '@'
    · simp [hc1, hc2] at h
    by_cases hc3 : c = 'd'
    · subst hc3
      simp only [hc1, hc2, if_false, reduceIte, parseDirective,
        parseSimpleTag, parseModuleTag] at h
      split at h
      · exact makeSimpleTag_inv _ _ _ _ h
      split at h
      · exact makeSimpleTag_inv _ _ _ _ h
      split at h
      · exact makeSimpleTag_inv _ _ _ _ h
      split at h
      · exact makeSimpleTag_inv _ _ _ _ h
      · simp at h
    · simp [hc1, hc2, hc3] at h

theorem scanLines_inv (cfg : KindConfig) (lines : List (List Char)) :
    ∀ m t, t ∈ (scanLines cfg lines m).1 → t.name ≠ [] ∧ t.scope = none := by
  induction lines with
  | nil => intro m t ht; simp [scanLines] at ht
  | cons line rest ih =>
    intro m t ht
    simp only [scanLines, List.mem_append] at ht
    rcases ht with ht | ht
    · cases hp : (processLine cfg line m).1 with
      | none => rw [hp] at ht; simp at ht
      | some t' =>
        rw [hp] at ht
        simp only [Option.toList_some, List.mem_singleton] at ht
        subst ht
        exact processLine_tag_inv cfg line m t hp
    · exact ih _ t ht

/-! ## Kind disabling -/

theorem letter_inj (j k : elixirKind)
    (h : (ElixirKinds j).letter = (ElixirKinds k).letter) : j = k := by
  revert h
  cases j <;> cases k <;> decide

theorem optFilter_toList {α : Type} (p : α → Bool) (o : Option α) :
    (optFilter p o).toList = o.toList.filter p := by
  cases o with
  | none => rfl
  | some a =>
    simp only [optFilter, Option.toList_some, List.filter]
    split <;> rename_i h <;> simp [h]

theorem makeSimpleTag_disable (cfg : KindConfig) (k : elixirKind)
    (id : List Char) (j : elixirKind) :
    makeSimpleTag (disable cfg k) id j =
      optFilter (fun t => !(t.kind = (ElixirKinds k).letter)) (makeSimpleTag cfg id j) := by
  by_cases hjk : j = k
  · subst hjk
    have h1 : disable cfg j j = false := by simp [disable]
    simp only [makeSimpleTag, h1, Bool.false_and, Bool.false_eq_true, if_false]
    split
    · simp [optFilter]
    · simp [optFilter]
  · have h1 : disable cfg k j = cfg j := by simp [disable, hjk]
    have h2 : ¬ (ElixirKinds j).letter = (ElixirKinds k).letter :=
      fun h => hjk (letter_inj j k h)
    simp only [makeSimpleTag, h1]
    split
    · simp [optFilter, h2]
    · simp [optFilter]

theorem parseDirective_disable (cfg : KindConfig) (k : elixirKind)
    (cp m : List Char) :
    parseDirective (disable cfg k) cp m =
      (optFilter (fun t => !(t.kind = (ElixirKinds k).letter)) (parseDirective cfg cp m).1,
       (parseDirective cfg cp m).2) := by
  unfold parseDirective parseSimpleTag parseModuleTag
  by_cases h1 : ((parseIdentifier cp).1 = ['d', 'e', 'f'] ||
      (parseIdentifier cp).1 = ['d', 'e', 'f', 'p']) = true
  · simp only [h1, if_true, reduceIte]
    simp [makeSimpleTag_disable]
  · simp only [h1, Bool.false_eq_true, if_false, reduceIte]
    by_cases h2 : (parseIdentifier cp).1 = ['d', 'e', 'f', 'm', 'a', 'c', 'r', 'o']
    · simp only [h2, if_true, reduceIte]
      simp [makeSimpleTag_disable]
    · simp only [h2, if_false, reduceIte]
      by_cases h3 : (parseIdentifier cp).1 = ['d', 'e', 'f', 'r', 'e', 'c', 'o', 'r', 'd']
      · simp only [h3, if_true, reduceIte]
        simp [makeSimpleTag_disable]
      · simp only [h3, if_false, reduceIte]
        by_cases h4 : (parseIdentifier cp).1 = ['d', 'e', 'f', 'm', 'o', 'd', 'u', 'l', 'e']
        · simp only [h4, if_true, reduceIte]
          simp [makeSimpleTag_disable]
        · simp only [h4, if_false, reduceIte]
          simp [optFilter]

theorem processLine_disable (cfg : KindConfig) (k : elixirKind)
    (line m : List Char) :
    processLine (disable cfg k) line m =
      (optFilter (fun t => !(t.kind = (ElixirKinds k).letter)) (processLine cfg line m).1,
       (processLine cfg line m).2) := by
  unfold processLine
  cases hsw : skipWhitespace line with
  | nil => simp [optFilter]
  | cons c cs =>
    by_cases hc1 : c = '#'
    · simp [hc1, optFilter]
    by_cases hc2 : c = '@'
    · simp [hc1, hc2, optFilter]
    by_cases hc3 : c = 'd'
    · subst hc3
      simp only [hc1, hc2, if_false, reduceIte]
      exact parseDirective_disable cfg k ('d' :: cs) m
    · simp [hc1, hc2, hc3, optFilter]

theorem scanLines_disable (cfg : KindConfig) (k : elixirKind)
    (lines : List (List Char)) : ∀ m,
    scanLines (disable cfg k) lines m =
      ((scanLines cfg lines m).1.filter (fun t => !(t.kind = (ElixirKinds k).letter)),
       (scanLines cfg lines m).2) := by
  induction lines with
  | nil => intro m; simp [scanLines]
  | cons line rest ih =>
    intro m
    simp only [scanLines]
    rw [processLine_disable, ih]
    simp [List.filter_append, optFilter_toList]

/-! ## Helper: the directive keyword of a keyword-led line -/

theorem directiveOf_keyword (c0 : Char) (kwtl ws2 tail : List Char)
    (hc0s : isspace c0 = false)
    (hkw : ∀ c ∈ c0 :: kwtl, isIdentifierCharacter c = true)
    (hws2 : ws2 ≠ []) (h2 : ∀ c ∈ ws2, isspace c = true) :
    directiveOf ((c0 :: kwtl) ++ ws2 ++ tail) = c0 :: kwtl := by
  obtain ⟨w, wtl, rfl⟩ : ∃ w wtl, ws2 = w :: wtl := by
    cases ws2 with
    | nil => exact absurd rfl hws2
    | cons a b => exact ⟨a, b, rfl⟩
  have hwni : isIdentifierCharacter w = false :=
    space_not_ident w (h2 w (by simp))
  unfold directiveOf
  have h1 : skipWhitespace ((c0 :: kwtl) ++ (w :: wtl) ++ tail) =
      (c0 :: kwtl) ++ (w :: wtl) ++ tail := by
    simp only [List.cons_append]
    exact skipWhitespace_cons _ _ hc0s
  rw [h1, List.append_assoc,
    parseIdentifier_append (c0 :: kwtl) ((w :: wtl) ++ tail) hkw
      (by simp [noIdentAhead, hwni])]

/-! ## The claims -/

/-- C1 (counterexample): the claim says a `def bar` line scanned after a prior
`defmodule Foo` line yields a tag with scope `{module, Foo}`; on the code the
tag for `bar` is unscoped (`def`/`defp` dispatch to `parseSimpleTag`), so no
such scoped tag exists in the output for this two-line file. -/
theorem def_after_defmodule_not_scoped_cex :
    ¬ ∃ t, t ∈ findElixirTags defaultEnabled
        [['d', 'e', 'f', 'm', 'o', 'd', 'u', 'l', 'e', ' ', 'F', 'o', 'o'],
         ['d', 'e', 'f', ' ', 'b', 'a', 'r']] ∧
      t.name = ['b', 'a', 'r'] ∧
      t.scope = some ("module", ['F', 'o', 'o']) := by decide

/-- C1 (amended): for every line of the form `def bar` or `defp bar`, whatever
the current module state (in particular after a prior `defmodule Foo`),
exactly one tag is emitted with name `bar`, kind function, and no scope, and
the module state is unchanged. -/
theorem def_emits_unscoped_function_tag (cfg : KindConfig)
    (kw ws2 bar rest m : List Char)
    (hcfg : cfg K_FUNCTION = true)
    (hkw : kw = ['d', 'e', 'f'] ∨ kw = ['d', 'e', 'f', 'p'])
    (hws2 : ws2 ≠ []) (h2 : ∀ c ∈ ws2, isspace c = true)
    (hbar : bar ≠ []) (h4 : ∀ c ∈ bar, isIdentifierCharacter c = true)
    (h5 : noIdentAhead rest = true) :
    processLine cfg (kw ++ ws2 ++ bar ++ rest) m =
      (some { name := bar, kindName := "function", kind := 'f', scope := none }, m) := by
  rcases hkw with rfl | rfl
  · rw [processLine_keyword cfg _ K_FUNCTION ws2 bar rest m
      (Or.inl ⟨rfl, rfl⟩) hws2 h2 hbar h4 h5]
    simp [makeSimpleTag, hcfg, ElixirKinds, List.length_pos, hbar]
  · rw [processLine_keyword cfg _ K_FUNCTION ws2 bar rest m
      (Or.inr (Or.inl ⟨rfl, rfl⟩)) hws2 h2 hbar h4 h5]
    simp [makeSimpleTag, hcfg, ElixirKinds, List.length_pos, hbar]

/-- C1 (witness): the amended claim at `def bar` with module state `Foo`. -/
theorem def_emits_unscoped_function_tag_witness :
    processLine defaultEnabled
        (['d', 'e', 'f'] ++ [' '] ++ ['b', 'a', 'r'] ++ []) ['F', 'o', 'o'] =
      (some { name := ['b', 'a', 'r'], kindName := "function", kind := 'f',
              scope := none }, ['F', 'o', 'o']) :=
  def_emits_unscoped_function_tag defaultEnabled ['d', 'e', 'f'] [' ']
    ['b', 'a', 'r'] [] ['F', 'o', 'o'] (by decide) (Or.inl rfl) (by decide)
    (by decide) (by decide) (by decide) (by decide)

/-- C2 (counterexample): the claim says a `defmacrop baz` line yields a macro
tag; on the code only the exact keyword `defmacro` is matched, so the file
consisting of the single line `defmacrop baz` yields no tags at all. -/
theorem defmacrop_emits_no_tag_cex :
    findElixirTags defaultEnabled
      [['d', 'e', 'f', 'm', 'a', 'c', 'r', 'o', 'p', ' ', 'b', 'a', 'z']] = [] := by
  decide

/-- C2 (amended): a line whose leading identifier is `defmacro` followed by an
identifier `baz` emits one tag with name `baz`, kind macro, and no scope,
regardless of the module state; a line whose leading identifier is
`defmacrop` emits no tag and leaves the state unchanged (only `defmacro` is
in the keyword table). -/
theorem defmacro_emits_macro_tag_defmacrop_ignored :
    (∀ (cfg : KindConfig) (ws2 baz rest m : List Char),
        cfg K_MACRO = true → ws2 ≠ [] → (∀ c ∈ ws2, isspace c = true) →
        baz ≠ [] → (∀ c ∈ baz, isIdentifierCharacter c = true) →
        noIdentAhead rest = true →
        processLine cfg (['d', 'e', 'f', 'm', 'a', 'c', 'r', 'o'] ++ ws2 ++ baz ++ rest) m =
          (some { name := baz, kindName := "macro", kind := 'd', scope := none }, m))
    ∧ (∀ (cfg : KindConfig) (ws2 tail m : List Char),
        ws2 ≠ [] → (∀ c ∈ ws2, isspace c = true) →
        processLine cfg (['d', 'e', 'f', 'm', 'a', 'c', 'r', 'o', 'p'] ++ ws2 ++ tail) m =
          (none, m)) := by
  constructor
  · intro cfg ws2 baz rest m hcfg hws2 h2 hbaz h4 h5
    rw [processLine_keyword cfg _ K_MACRO ws2 baz rest m
      (Or.inr (Or.inr (Or.inl ⟨rfl, rfl⟩))) hws2 h2 hbaz h4 h5]
    simp [makeSimpleTag, hcfg, ElixirKinds, List.length_pos, hbaz]
  · intro cfg ws2 tail m hws2 h2
    have hd := directiveOf_keyword 'd' ['e', 'f', 'm', 'a', 'c', 'r', 'o', 'p']
      ws2 tail (by decide) (by decide) hws2 h2
    exact processLine_skip cfg _ m (by rw [hd]; decide) (by rw [hd]; decide)
      (by rw [hd]; decide) (by rw [hd]; decide) (by rw [hd]; decide)

/-- C2 (witness): the amended claim at `defmacro baz` with module state `M`,
and at `defmacrop baz`. -/
theorem defmacro_emits_macro_tag_defmacrop_ignored_witness :
    processLine defaultEnabled
        (['d', 'e', 'f', 'm', 'a', 'c', 'r', 'o'] ++ [' '] ++ ['b', 'a', 'z'] ++ []) ['M'] =
      (some { name := ['b', 'a', 'z'], kindName := "macro", kind := 'd',
              scope := none }, ['M'])
    ∧ processLine defaultEnabled
        (['d', 'e', 'f', 'm', 'a', 'c', 'r', 'o', 'p'] ++ [' '] ++ ['b', 'a', 'z']) ['M'] =
      (none, ['M']) :=
  ⟨defmacro_emits_macro_tag_defmacrop_ignored.1 defaultEnabled [' ']
      ['b', 'a', 'z'] [] ['M'] (by decide) (by decide) (by decide) (by decide)
      (by decide) (by decide),
   defmacro_emits_macro_tag_defmacrop_ignored.2 defaultEnabled [' ']
      ['b', 'a', 'z'] ['M'] (by decide) (by decide)⟩

/-- C3: a `defmodule Foo` line emits exactly one tag with name `Foo`, kind
module, no scope, and overwrites the module state with `Foo`; the state then
keeps the value `Foo` across every subsequent line whose directive keyword is
not `defmodule`. -/
theorem defmodule_emits_module_tag_and_sets_state (cfg : KindConfig)
    (ws2 foo rest m : List Char) (later : List (List Char))
    (hcfg : cfg K_MODULE = true)
    (hws2 : ws2 ≠ []) (h2 : ∀ c ∈ ws2, isspace c = true)
    (hfoo : foo ≠ []) (h4 : ∀ c ∈ foo, isIdentifierCharacter c = true)
    (h5 : noIdentAhead rest = true)
    (hlater : ∀ l ∈ later, directiveOf l ≠ ['d', 'e', 'f', 'm', 'o', 'd', 'u', 'l', 'e']) :
    processLine cfg (['d', 'e', 'f', 'm', 'o', 'd', 'u', 'l', 'e'] ++ ws2 ++ foo ++ rest) m =
      (some { name := foo, kindName := "module", kind := 'm', scope := none }, foo)
    ∧ (scanLines cfg later foo).2 = foo := by
  constructor
  · rw [processLine_defmodule cfg ws2 foo rest m hws2 h2 hfoo h4 h5]
    simp [makeSimpleTag, hcfg, ElixirKinds, List.length_pos, hfoo]
  · revert hlater
    induction later with
    | nil => intro _; rfl
    | cons l ls ih =>
      intro hlater
      simp only [scanLines]
      rw [processLine_state cfg l foo (hlater l (by simp))]
      exact ih (fun x hx => hlater x (by simp [hx]))

/-- C3 (witness): `defmodule Foo` from the empty state, followed by a
`def bar` line that leaves the state at `Foo`. -/
theorem defmodule_emits_module_tag_and_sets_state_witness :
    processLine defaultEnabled
        (['d', 'e', 'f', 'm', 'o', 'd', 'u', 'l', 'e'] ++ [' '] ++ ['F', 'o', 'o'] ++ []) [] =
      (some { name := ['F', 'o', 'o'], kindName := "module", kind := 'm',
              scope := none }, ['F', 'o', 'o'])
    ∧ (scanLines defaultEnabled [['d', 'e', 'f', ' ', 'b', 'a', 'r']] ['F', 'o', 'o']).2 =
      ['F', 'o', 'o'] :=
  defmodule_emits_module_tag_and_sets_state defaultEnabled [' '] ['F', 'o', 'o']
    [] [] [['d', 'e', 'f', ' ', 'b', 'a', 'r']] (by decide) (by decide)
    (by decide) (by decide) (by decide) (by decide) (by decide)

/-- C4: each file is scanned by its own `findElixirTags` call with the module
state initialized empty, so nothing leaks from the first file: a second file
beginning with `def bar` yields an unscoped tag for `bar` whatever the first
file contained. -/
theorem module_state_not_leaked_across_files (cfg : KindConfig)
    (hcfg : cfg K_FUNCTION = true)
    (file1 : List (List Char)) (rest : List (List Char)) :
    scanFiles cfg [file1, ['d', 'e', 'f', ' ', 'b', 'a', 'r'] :: rest] =
      [findElixirTags cfg file1,
       { name := ['b', 'a', 'r'], kindName := "function", kind := 'f', scope := none }
         :: (scanLines cfg rest []).1] := by
  have h := processLine_keyword cfg ['d', 'e', 'f'] K_FUNCTION [' ']
    ['b', 'a', 'r'] [] [] (Or.inl ⟨rfl, rfl⟩) (by decide) (by decide)
    (by decide) (by decide) (by decide)
  have h' : processLine cfg ['d', 'e', 'f', ' ', 'b', 'a', 'r'] [] =
      (makeSimpleTag cfg ['b', 'a', 'r'] K_FUNCTION, []) := h
  unfold scanFiles findElixirTags
  simp only [List.map, scanLines]
  rw [h']
  simp [makeSimpleTag, hcfg, ElixirKinds]

/-- C4 (witness): a first file that sets module `Foo` does not scope the
`bar` tag of the second file. -/
theorem module_state_not_leaked_across_files_witness :
    scanFiles defaultEnabled
        [[['d', 'e', 'f', 'm', 'o', 'd', 'u', 'l', 'e', ' ', 'F', 'o', 'o']],
         ['d', 'e', 'f', ' ', 'b', 'a', 'r'] :: []] =
      [findElixirTags defaultEnabled
         [['d', 'e', 'f', 'm', 'o', 'd', 'u', 'l', 'e', ' ', 'F', 'o', 'o']],
       { name := ['b', 'a', 'r'], kindName := "function", kind := 'f', scope := none }
         :: (scanLines defaultEnabled [] []).1] :=
  module_state_not_leaked_across_files defaultEnabled (by decide) _ _

/-- C5: every emitted tag has a non-empty name; and a recognized directive
keyword followed by no identifier (end of line, or a character outside the
identifier class, even after whitespace) emits no tag. -/
theorem no_tag_without_identifier :
    (∀ (cfg : KindConfig) (lines : List (List Char)) (t : tagEntryInfo),
        t ∈ findElixirTags cfg lines → t.name ≠ [])
    ∧ (∀ (cfg : KindConfig) (kw tail m : List Char),
        kw ∈ ([['d', 'e', 'f'], ['d', 'e', 'f', 'p'],
               ['d', 'e', 'f', 'm', 'a', 'c', 'r', 'o'],
               ['d', 'e', 'f', 'r', 'e', 'c', 'o', 'r', 'd'],
               ['d', 'e', 'f', 'm', 'o', 'd', 'u', 'l', 'e']] : List (List Char)) →
        noIdentAhead tail = true → noIdentAhead (skipWhitespace tail) = true →
        (processLine cfg (kw ++ tail) m).1 = none) := by
  constructor
  · intro cfg lines t ht
    exact (scanLines_inv cfg lines [] t ht).1
  · intro cfg kw tail m hkw h1 h2
    exact processLine_kw_no_ident cfg kw tail m hkw h1 h2

/-- C5 (witness): the name invariant at the `Foo` module tag, and the bare
line `def` emitting nothing. -/
theorem no_tag_without_identifier_witness :
    (['F', 'o', 'o'] : List Char) ≠ [] ∧
      (processLine defaultEnabled (['d', 'e', 'f'] ++ []) []).1 = none :=
  ⟨no_tag_without_identifier.1 defaultEnabled
      [['d', 'e', 'f', 'm', 'o', 'd', 'u', 'l', 'e', ' ', 'F', 'o', 'o']]
      { name := ['F', 'o', 'o'], kindName := "module", kind := 'm', scope := none }
      (by decide),
   no_tag_without_identifier.2 defaultEnabled ['d', 'e', 'f'] [] []
      (by decide) (by decide) (by decide)⟩

/-- C6: a line starting (after whitespace) with `#` or `@` emits no tag and
leaves the module state unchanged; and so does a line whose leading
identifier starts with `d` but matches none of the recognized keywords. -/
theorem comment_at_and_unrecognized_lines_no_effect :
    (∀ (cfg : KindConfig) (ws1 cs m : List Char) (c : Char),
        (∀ x ∈ ws1, isspace x = true) → (c = '#' ∨ c = '@') →
        processLine cfg (ws1 ++ c :: cs) m = (none, m))
    ∧ (∀ (cfg : KindConfig) (line m : List Char),
        (∃ tail, skipWhitespace line = 'd' :: tail) →
        directiveOf line ≠ ['d', 'e', 'f'] →
        directiveOf line ≠ ['d', 'e', 'f', 'p'] →
        directiveOf line ≠ ['d', 'e', 'f', 'm', 'a', 'c', 'r', 'o'] →
        directiveOf line ≠ ['d', 'e', 'f', 'r', 'e', 'c', 'o', 'r', 'd'] →
        directiveOf line ≠ ['d', 'e', 'f', 'm', 'o', 'd', 'u', 'l', 'e'] →
        processLine cfg line m = (none, m)) := by
  constructor
  · intro cfg ws1 cs m c hws hc
    unfold processLine
    rw [skipWhitespace_append ws1 (c :: cs) hws]
    rcases hc with rfl | rfl
    · rw [skipWhitespace_cons _ _ (by decide)]
      simp
    · rw [skipWhitespace_cons _ _ (by decide)]
      simp
  · intro cfg line m _ d1 d2 d3 d4 d5
    exact processLine_skip cfg line m d1 d2 d3 d4 d5

/-- C6 (witness): a comment line and the line `destroy foo`, both from module
state `M`. -/
theorem comment_at_and_unrecognized_lines_no_effect_witness :
    processLine defaultEnabled ([' '] ++ '#' :: ['x']) ['M'] = (none, ['M'])
    ∧ processLine defaultEnabled
        ['d', 'e', 's', 't', 'r', 'o', 'y', ' ', 'f', 'o', 'o'] ['M'] = (none, ['M']) :=
  ⟨comment_at_and_unrecognized_lines_no_effect.1 defaultEnabled [' '] ['x'] ['M'] '#'
      (by decide) (Or.inl rfl),
   comment_at_and_unrecognized_lines_no_effect.2 defaultEnabled
      ['d', 'e', 's', 't', 'r', 'o', 'y', ' ', 'f', 'o', 'o'] ['M']
      ⟨['e', 's', 't', 'r', 'o', 'y', ' ', 'f', 'o', 'o'], by decide⟩
      (by decide) (by decide) (by decide) (by decide) (by decide)⟩

/-- C7: disabling any one kind in the configuration suppresses exactly the
tags carrying that kind's code letter and leaves every other emitted tag
unchanged, for every file. -/
theorem disabling_kind_filters_its_tags (cfg : KindConfig) (k : elixirKind)
    (lines : List (List Char)) :
    findElixirTags (disable cfg k) lines =
      (findElixirTags cfg lines).filter (fun t => !(t.kind = (ElixirKinds k).letter)) := by
  unfold findElixirTags
  rw [scanLines_disable]

/-- C8: `parseIdentifier` returns the maximal run of identifier characters
(alphanumeric, underscore or dot) from the cursor together with the cursor
advanced to the first non-matching character, which is not consumed; the
scanned text may be empty; in particular `Foo.Bar` is one identifier. -/
theorem parseIdentifier_scans_maximal_run :
    (∀ cp : List Char,
        parseIdentifier cp =
          (cp.takeWhile isIdentifierCharacter, cp.dropWhile isIdentifierCharacter))
    ∧ parseIdentifier (['F', 'o', 'o', '.', 'B', 'a', 'r'] ++ [' ', 'x']) =
        (['F', 'o', 'o', '.', 'B', 'a', 'r'], [' ', 'x']) :=
  ⟨parseIdentifier_eq_takeWhile, by decide⟩

/-- C9: no tag emitted by the line-scanning driver ever carries a scope
field: the only scope-attaching path (`parseFunctionTag` via `makeMemberTag`)
is unreachable, `def`/`defp` dispatching to the unscoped `parseSimpleTag`. -/
theorem emitted_tags_never_scoped (cfg : KindConfig) (lines : List (List Char))
    (t : tagEntryInfo) (ht : t ∈ findElixirTags cfg lines) : t.scope = none :=
  (scanLines_inv cfg lines [] t ht).2

/-- C9 (witness): the `bar` tag of a file that sets module `Foo` first. -/
theorem emitted_tags_never_scoped_witness :
    ({ name := ['b', 'a', 'r'], kindName := "function", kind := 'f',
       scope := none } : tagEntryInfo).scope = none :=
  emitted_tags_never_scoped defaultEnabled
    [['d', 'e', 'f', 'm', 'o', 'd', 'u', 'l', 'e', ' ', 'F', 'o', 'o'],
     ['d', 'e', 'f', ' ', 'b', 'a', 'r']]
    { name := ['b', 'a', 'r'], kindName := "function", kind := 'f', scope := none }
    (by decide)

/-- C10: with the module kind disabled, a `defmodule Foo` line emits no tag
but still overwrites the module state with `Foo`; a subsequent scoped
emission through `makeMemberTag` (the commented-out path) would attach scope
`("module", Foo)`. -/
theorem defmodule_disabled_still_updates_state (cfg : KindConfig)
    (ws2 foo rest m : List Char)
    (hcfg : cfg K_MODULE = false)
    (hws2 : ws2 ≠ []) (h2 : ∀ c ∈ ws2, isspace c = true)
    (hfoo : foo ≠ []) (h4 : ∀ c ∈ foo, isIdentifierCharacter c = true)
    (h5 : noIdentAhead rest = true) :
    processLine cfg (['d', 'e', 'f', 'm', 'o', 'd', 'u', 'l', 'e'] ++ ws2 ++ foo ++ rest) m =
      (none, foo)
    ∧ (∀ (cfg2 : KindConfig) (bar : List Char), cfg2 K_FUNCTION = true → bar ≠ [] →
        makeMemberTag cfg2 bar K_FUNCTION (some foo) =
          some { name := bar, kindName := "function", kind := 'f',
                 scope := some ("module", foo) }) := by
  constructor
  · rw [processLine_defmodule cfg ws2 foo rest m hws2 h2 hfoo h4 h5]
    simp [makeSimpleTag, hcfg]
  · intro cfg2 bar hc2 hbar
    simp [makeMemberTag, hc2, ElixirKinds, List.length_pos, hbar, hfoo]

/-- C10 (witness): `defmodule Foo` with the module kind disabled, from state
`Old`; and the scoped emission `bar` in module `Foo`. -/
theorem defmodule_disabled_still_updates_state_witness :
    processLine (disable defaultEnabled K_MODULE)
        (['d', 'e', 'f', 'm', 'o', 'd', 'u', 'l', 'e'] ++ [' '] ++ ['F', 'o', 'o'] ++ [])
        ['O', 'l', 'd'] = (none, ['F', 'o', 'o'])
    ∧ makeMemberTag defaultEnabled ['b', 'a', 'r'] K_FUNCTION (some ['F', 'o', 'o']) =
        some { name := ['b', 'a', 'r'], kindName := "function", kind := 'f',
               scope := some ("module", ['F', 'o', 'o']) } :=
  ⟨(defmodule_disabled_still_updates_state (disable defaultEnabled K_MODULE)
      [' '] ['F', 'o', 'o'] [] ['O', 'l', 'd'] (by decide) (by decide) (by decide)
      (by decide) (by decide) (by decide)).1,
   (defmodule_disabled_still_updates_state (disable defaultEnabled K_MODULE)
      [' '] ['F', 'o', 'o'] [] ['O', 'l', 'd'] (by decide) (by decide) (by decide)
      (by decide) (by decide) (by decide)).2 defaultEnabled ['b', 'a', 'r']
      (by decide) (by decide)⟩

end Ctags.Elixir
